import Mathlib

/-!
Verification of the template-instantiation engine of the `templates`
repository fragment.  The repository ships two template data files
(`src/my_cli/__init__.py` and `tests/test_main.py`); the engine that
consumes them (Token Substitution Engine, Path Renderer, Template Tree
Walker, Materializer) is specified in `spec.md` but its code is not part
of the excerpt, so the engine is modelled from the spec, while the two
template files are embedded byte for byte.
-/

set_option maxRecDepth 10000

namespace TemplateEngine

/-- Modelled from the spec: `Bindings` is a mapping from variable name to
substitution value (§3); the engine's code is missing from the excerpt, so
the data model follows the spec's words. Represented as an association
list, looked up with `List.lookup`. -/
abbrev Bindings := List (String × String)

/-- The literal opening-brace character of the `\x7b\x7bidentifier\x7d\x7d`
placeholder syntax. -/
def lbrace : Char := '{'

/-- The literal closing-brace character of the placeholder syntax. -/
def rbrace : Char := '}'

/-- Modelled from the spec: first character of a variable name, matching
`[A-Za-z_]` (§4.1); the Token Substitution Engine's code is missing from
the excerpt. -/
def isIdentStart (c : Char) : Bool :=
  (decide ('A' ≤ c) && decide (c ≤ 'Z')) || (decide ('a' ≤ c) && decide (c ≤ 'z')) ||
    decide (c = '_')

/-- Modelled from the spec: continuation character of a variable name,
matching `[A-Za-z0-9_]` (§4.1). -/
def isIdentChar (c : Char) : Bool :=
  isIdentStart c || (decide ('0' ≤ c) && decide (c ≤ '9'))

/-- Modelled from the spec: whether a string is a well-formed variable
name, i.e. matches `[A-Za-z_][A-Za-z0-9_]*` (§3, §4.1). -/
def identStr (s : String) : Bool :=
  match s.data with
  | [] => false
  | c :: cs => isIdentStart c && cs.all isIdentChar

/-- Modelled from the spec: recognise the two closing braces of a
placeholder marker, returning the remaining input (§4.1, §6). -/
def closeBraces : List Char → Option (List Char)
  | d1 :: d2 :: r => if d1 = rbrace ∧ d2 = rbrace then some r else none
  | _ => none

/-- Modelled from the spec: the input remaining after the identifier of a
marker body and the trailing tolerated whitespace (§4.1). -/
def afterIdent (cs : List Char) : List Char :=
  (cs.dropWhile isIdentChar).dropWhile Char.isWhitespace

/-- Modelled from the spec: match the interior of a placeholder marker
(after the two opening braces): optional whitespace, a variable name,
optional whitespace, then the two closing braces (§4.1).  Returns the
trimmed variable name and the input remaining after the marker. -/
def markerBody (r0 : List Char) : Option (String × List Char) :=
  match r0.dropWhile Char.isWhitespace with
  | c :: cs =>
    if isIdentStart c then
      match closeBraces (afterIdent cs) with
      | some r3 => some (String.mk (c :: cs.takeWhile isIdentChar), r3)
      | none => none
    else none
  | [] => none

/-- Modelled from the spec: try to match a complete placeholder marker
`\x7b\x7b` name `\x7d\x7d` at the head of the input (§4.1, §6); the
engine's code is missing from the excerpt.  Returns the variable name and
the input remaining after the marker. -/
def matchMarker : List Char → Option (String × List Char)
  | c1 :: c2 :: r0 => if c1 = lbrace ∧ c2 = lbrace then markerBody r0 else none
  | _ => none

/-- Modelled from the spec: the Token Substitution Engine's scan (§4.1).
Left to right, non-overlapping: at each position a marker is either
matched whole (and its bound value emitted, never re-scanned) or the
current character is emitted literally.  A marker naming an unbound
variable is a fatal error carrying the variable name.  The fuel argument
bounds recursion and is fixed to the input length by `renderChars`;
each step consumes at least one input character, so the fuel never runs
out on that call pattern. -/
def renderGo (b : Bindings) : Nat → List Char → Except String (List Char)
  | _, [] => .ok []
  | 0, _ :: _ => .ok []
  | fuel + 1, c :: cs =>
    match matchMarker (c :: cs) with
    | some (nm, rest) =>
      match List.lookup nm b with
      | some v =>
        match renderGo b fuel rest with
        | .ok t => .ok (v.data ++ t)
        | .error e => .error e
      | none => .error nm
    | none =>
      match renderGo b fuel cs with
      | .ok t => .ok (c :: t)
      | .error e => .error e

/-- Modelled from the spec: substitution over a character list (§4.1). -/
def renderChars (b : Bindings) (l : List Char) : Except String (List Char) :=
  renderGo b l.length l

/-- Modelled from the spec: the Token Substitution Engine — replace every
placeholder marker in a text blob by its bound value, or fail with the
name of the first unbound variable encountered (§4.1). -/
def renderText (b : Bindings) (s : String) : Except String String :=
  match renderChars b s.data with
  | .ok l => .ok (String.mk l)
  | .error e => .error e

/-- Modelled from the spec: the variable names of all placeholder markers
of the input, in scan order (§3 invariant, §4.1); same scan as
`renderGo`. -/
def usedVarsGo : Nat → List Char → List String
  | _, [] => []
  | 0, _ :: _ => []
  | fuel + 1, c :: cs =>
    match matchMarker (c :: cs) with
    | some (nm, rest) => nm :: usedVarsGo fuel rest
    | none => usedVarsGo fuel cs

/-- Modelled from the spec: the variable names of all placeholder markers
appearing in a string (§3 invariant). -/
def usedVarsStr (s : String) : List String :=
  usedVarsGo s.data.length s.data

/-- `true` when no position of the input starts a placeholder marker. -/
def noMarkerL : List Char → Bool
  | [] => true
  | c :: cs => (matchMarker (c :: cs)).isNone && noMarkerL cs

/-- `true` when the string contains no placeholder marker. -/
def noMarkerStr (s : String) : Bool := noMarkerL s.data

/-- Whether an `Except` computation succeeded. -/
def isOkE : Except ε α → Bool
  | .ok _ => true
  | .error _ => false

/-- Generic non-strict lexicographic comparison of lists, from a strict
comparison of elements. -/
def lexLe [DecidableEq α] (lt : α → α → Bool) : List α → List α → Bool
  | [], _ => true
  | _ :: _, [] => false
  | a :: as, b :: bs => if a = b then lexLe lt as bs else lt a b

/-- Strict byte-order comparison of characters (by code point). -/
def charLt (a b : Char) : Bool := decide (a < b)

/-- Modelled from the spec: ascending lexicographic byte order on raw
names (§4.3); the Walker's code is missing from the excerpt. -/
def strLe (s t : String) : Bool := lexLe charLt s.data t.data

/-- Strict version of `strLe`. -/
def strLt (s t : String) : Bool := strLe s t && decide (s ≠ t)

/-- Modelled from the spec: the Walker's enumeration order on
template-relative paths — lexicographic on path segments, which yields
depth-first traversal, directories before their children, and siblings in
ascending byte order of raw name (§4.3). -/
def pathLe (p q : List String) : Bool := lexLe strLt p q

/-- Modelled from the spec: the kind of a template tree node (§3,
`TemplateEntry`). -/
inductive EntryKind where
  | file
  | directory
deriving DecidableEq

/-- Modelled from the spec: one node of the template tree — a
template-root-relative path as an ordered sequence of segments, a kind,
and (for files) the raw content (§3); the engine's code is missing from
the excerpt.  Directory entries carry empty content. -/
structure TemplateEntry where
  path : List String
  kind : EntryKind
  content : String
deriving DecidableEq

/-- Modelled from the spec: a `TemplateEntry` after path- and
content-substitution (§3). -/
structure RenderedEntry where
  path : List String
  kind : EntryKind
  content : String
deriving DecidableEq

/-- Modelled from the spec: the failure taxonomy of instantiation (§7). -/
inductive TmplError where
  | unboundVariable (name : String) (path : List String)
  | invalidPathSegment (segment : String) (path : List String)
  | pathCollision (path : List String)
  | destinationExists
deriving DecidableEq

/-- The modelled destination filesystem: the directories and files that
exist, each file carrying its content.  Writes append, so the lists also
record creation order. -/
structure FS where
  dirs : List (List String)
  files : List (List String × String)
deriving DecidableEq

/-- Modelled from the spec: the variable names of all placeholder markers
appearing anywhere in an entry's path segments or content (§3
invariant). -/
def usedVarsEntry (e : TemplateEntry) : List String :=
  (e.path.map usedVarsStr).flatten ++ usedVarsStr e.content

/-- Modelled from the spec: whole-tree validation — find the first entry
with a placeholder naming a variable absent from Bindings, returning that
variable name and the originating entry's path (§3 invariant, §4.4
Phase 1). -/
def findUnbound (b : Bindings) : List TemplateEntry → Option (String × List String)
  | [] => none
  | e :: es =>
    match (usedVarsEntry e).find? (fun nm => (List.lookup nm b).isNone) with
    | some nm => some (nm, e.path)
    | none => findUnbound b es

/-- Error-propagating map over a list, stopping at the first failure. -/
def mapME (f : α → Except ε β) : List α → Except ε (List β)
  | [] => .ok []
  | a :: as =>
    match f a with
    | .error e => .error e
    | .ok bv =>
      match mapME f as with
      | .error e => .error e
      | .ok bs => .ok (bv :: bs)

/-- A character that acts as a path separator. -/
def isSep (c : Char) : Bool := decide (c = '/') || decide (c = '\\')

/-- Modelled from the spec: a rendered path segment the Path Renderer must
reject — empty, `.`, `..`, or containing a path separator character
post-substitution (§4.2). -/
def badSegment (s : String) : Bool :=
  decide (s = "") || decide (s = ".") || decide (s = "..") || s.data.any isSep

/-- Modelled from the spec: the Path Renderer on one segment — apply the
Token Substitution Engine, then the traversal guard; failures carry the
originating entry's template-relative path (§4.2); the Path Renderer's
code is missing from the excerpt. -/
def renderSegment (b : Bindings) (p : List String) (seg : String) : Except TmplError String :=
  match renderText b seg with
  | .error nm => .error (.unboundVariable nm p)
  | .ok s => if badSegment s then .error (.invalidPathSegment s p) else .ok s

/-- Modelled from the spec: the Path Renderer on a whole path — each
segment independently (§4.2). -/
def renderPath (b : Bindings) (p : List String) : Except TmplError (List String) :=
  mapME (renderSegment b p) p

/-- Modelled from the spec: render one template entry — destination path
via the Path Renderer, and for files the content via the Token
Substitution Engine (§4.4 Phase 1). -/
def renderEntry (b : Bindings) (e : TemplateEntry) : Except TmplError RenderedEntry :=
  match renderPath b e.path with
  | .error err => .error err
  | .ok dp =>
    match e.kind with
    | .directory => .ok ⟨dp, .directory, ""⟩
    | .file =>
      match renderText b e.content with
      | .error nm => .error (.unboundVariable nm e.path)
      | .ok c => .ok ⟨dp, .file, c⟩

/-- Modelled from the spec: post-substitution path-collision detection —
two rendered entries with equal destination paths are a fatal error (§3
invariant). -/
def checkCollisions : List RenderedEntry → Except TmplError Unit
  | [] => .ok ()
  | r :: rs =>
    if rs.any (fun r2 => decide (r2.path = r.path)) then .error (.pathCollision r.path)
    else checkCollisions rs

/-- Modelled from the spec: the default commit policy — fail when the
destination root already has entries beneath it (§4.4 Phase 2,
`DestinationExists`). -/
def destNonEmpty (fs : FS) (dest : List String) : Bool :=
  fs.dirs.any (fun d => dest.isPrefixOf d && decide (d ≠ dest)) ||
    fs.files.any (fun f => dest.isPrefixOf f.1)

/-- Modelled from the spec: Phase 2 of the Materializer — create
directories first (in Phase-1 order), then write files (in Phase-1
order), all under the destination root (§4.4). -/
def materialize (fs : FS) (dest : List String) (rs : List RenderedEntry) : FS :=
  { dirs := fs.dirs ++
      (rs.filter (fun r => decide (r.kind = EntryKind.directory))).map (fun r => dest ++ r.path),
    files := fs.files ++
      (rs.filter (fun r => decide (r.kind = EntryKind.file))).map
        (fun r => (dest ++ r.path, r.content)) }

/-- The number of file entries a rendered list will write. -/
def countFiles (rs : List RenderedEntry) : Nat :=
  (rs.filter (fun r => decide (r.kind = EntryKind.file))).length

/-- Modelled from the spec: the Walker's enumeration-order relation on
entries — by raw (pre-substitution) path (§4.3). -/
def entryRel (a b : TemplateEntry) : Prop := pathLe a.path b.path = true

instance : DecidableRel entryRel := fun a b =>
  inferInstanceAs (Decidable (pathLe a.path b.path = true))

/-- Modelled from the spec: whether the Walker keeps an entry — no path
segment (raw name) matches the configured exclusion set; a raw name match
excludes an entry together with its descendants, whose paths contain the
same segment (§4.3). -/
def keepEntry (excl : List String) (e : TemplateEntry) : Bool :=
  !(e.path.any (fun s => excl.contains s))

/-- Modelled from the spec: the Template Tree Walker — drop entries whose
raw name (any path segment) matches the exclusion set, descendants
included, and enumerate the rest depth-first, directories before their
children, siblings in ascending lexicographic byte order of raw name
(§4.3); the Walker's code is missing from the excerpt. -/
def walk (excl : List String) (es : List TemplateEntry) : List TemplateEntry :=
  List.insertionSort entryRel (es.filter (keepEntry excl))

/-- Modelled from the spec: the Materializer pipeline after walking —
Phase 1 (whole-tree unbound-variable validation, rendering of every path
and content, collision check, all without filesystem mutation) and
Phase 2 (destination policy check, then commit); on any failure the
filesystem is returned unchanged (§4.4).  Returns the resulting
filesystem and the `InstantiationResult` (destination root and count of
files written, or the failure). -/
def instantiateEntries (b : Bindings) (dest : List String) (fs : FS)
    (es : List TemplateEntry) : FS × Except TmplError (List String × Nat) :=
  match findUnbound b es with
  | some (nm, p) => (fs, .error (.unboundVariable nm p))
  | none =>
    match mapME (renderEntry b) es with
    | .error err => (fs, .error err)
    | .ok rs =>
      match checkCollisions rs with
      | .error err => (fs, .error err)
      | .ok _ =>
        if destNonEmpty fs dest then (fs, .error .destinationExists)
        else (materialize fs dest rs, .ok (dest, countFiles rs))

/-- Modelled from the spec: one full instantiation run — Walker, then the
two-phase Materializer (§2, §4.4). -/
def instantiate (excl : List String) (entries : List TemplateEntry) (b : Bindings)
    (dest : List String) (fs : FS) : FS × Except TmplError (List String × Nat) :=
  instantiateEntries b dest fs (walk excl entries)

/-- The exact content of the template file
`src/packages/create/templates/template-cli-py/src/my_cli/__init__.py`. -/
def initContent : String :=
  "\"\"\"\x7b\x7bname\x7d\x7d - CLI application.\"\"\"\n\nimport typer\n\napp = typer.Typer(help=\"\x7b\x7bname\x7d\x7d - A CLI application\")\n\n\n@app.command()\ndef hello(name: str = \"World\") -> None:\n    \"\"\"Say hello to someone.\"\"\"\n    print(f\"Hello, \x7bname\x7d!\")\n\n\ndef main() -> None:\n    app()\n\n\nif __name__ == \"__main__\":\n    main()\n\n"

/-- The exact content of the template file
`src/packages/create/templates/template-cli-py/tests/test_main.py`. -/
def testContent : String :=
  "\"\"\"Tests for \x7b\x7bname\x7d\x7d.\"\"\"\n\nfrom typer.testing import CliRunner\n\nfrom \x7b\x7bname\x7d\x7d import app\n\nrunner = CliRunner()\n\n\ndef test_hello():\n    \"\"\"Test hello command.\"\"\"\n    result = runner.invoke(app, [\"hello\", \"World\"])\n    assert result.exit_code == 0\n    assert \"Hello, World!\" in result.stdout"

/-- Every path segment of the two template files, relative to the
template root `template-cli-py`. -/
def templatePathSegs : List String :=
  ["src", "my_cli", "__init__.py", "tests", "test_main.py"]

/-- The f-string line of the generated `hello` command
(`src/my_cli/__init__.py`, line 11): single-brace interpolation whose
identifier coincides with the template variable `name`. -/
def fstringLine : String := "    print(f\"Hello, \x7bname\x7d!\")"

/-- The template tree of the spec's §8 scenario: `src/\x7b\x7bname\x7d\x7d/__init__`
with content `\x7b\x7bname\x7d\x7d` and `tests/test_main` with content
`from \x7b\x7bname\x7d\x7d import app`, plus their parent directories. -/
def scenarioEntries : List TemplateEntry :=
  [⟨["src"], .directory, ""⟩,
   ⟨["src", "\x7b\x7bname\x7d\x7d"], .directory, ""⟩,
   ⟨["src", "\x7b\x7bname\x7d\x7d", "__init__"], .file, "\x7b\x7bname\x7d\x7d"⟩,
   ⟨["tests"], .directory, ""⟩,
   ⟨["tests", "test_main"], .file, "from \x7b\x7bname\x7d\x7d import app"⟩]

theorem closeBraces_length {x : List Char} {r : List Char}
    (h : closeBraces x = some r) : r.length < x.length := by
  match x with
  | [] => simp [closeBraces] at h
  | [d] => simp [closeBraces] at h
  | d1 :: d2 :: t =>
    rw [closeBraces] at h
    split at h
    · cases h
      simp only [List.length_cons]
      omega
    · cases h

theorem markerBody_length {r0 : List Char} {nm : String} {rest : List Char}
    (h : markerBody r0 = some (nm, rest)) : rest.length < r0.length := by
  rw [markerBody] at h
  cases h1 : r0.dropWhile Char.isWhitespace with
  | nil => rw [h1] at h; cases h
  | cons c cs =>
    rw [h1] at h
    simp only [] at h
    split at h
    · cases h2 : closeBraces (afterIdent cs) with
      | none => rw [h2] at h; cases h
      | some r3 =>
        rw [h2] at h
        simp only [Option.some.injEq, Prod.mk.injEq] at h
        obtain ⟨-, hrest⟩ := h
        subst hrest
        have hc : r3.length < (afterIdent cs).length := closeBraces_length h2
        have ha : (afterIdent cs).length ≤ cs.length := by
          have h3 : ((cs.dropWhile isIdentChar).dropWhile Char.isWhitespace).length ≤
              (cs.dropWhile isIdentChar).length := (List.dropWhile_sublist _).length_le
          have h4 : (cs.dropWhile isIdentChar).length ≤ cs.length :=
            (List.dropWhile_sublist _).length_le
          exact le_trans h3 h4
        have hd : (c :: cs).length ≤ r0.length := by
          rw [← h1]; exact (List.dropWhile_sublist _).length_le
        simp only [List.length_cons] at hd
        omega
    · cases h

theorem matchMarker_length {l : List Char} {nm : String} {rest : List Char}
    (h : matchMarker l = some (nm, rest)) : rest.length < l.length := by
  match l with
  | [] => cases h
  | [c] => cases h
  | c1 :: c2 :: r0 =>
    rw [matchMarker] at h
    split at h
    · have := markerBody_length h
      simp only [List.length_cons]
      omega
    · cases h

theorem renderGo_fuel (b : Bindings) :
    ∀ (f1 f2 : Nat) (l : List Char), l.length ≤ f1 → l.length ≤ f2 →
      renderGo b f1 l = renderGo b f2 l := by
  intro f1
  induction f1 with
  | zero =>
    intro f2 l h1 _
    have : l = [] := List.eq_nil_of_length_eq_zero (Nat.le_zero.mp h1)
    subst this
    cases f2 <;> rfl
  | succ f1' ih =>
    intro f2 l h1 h2
    cases l with
    | nil => cases f2 <;> rfl
    | cons c cs =>
      cases f2 with
      | zero => simp at h2
      | succ f2' =>
        simp only [List.length_cons] at h1 h2
        cases hm : matchMarker (c :: cs) with
        | some p =>
          obtain ⟨nm, rest⟩ := p
          have hr : rest.length < (c :: cs).length := matchMarker_length hm
          simp only [List.length_cons] at hr
          simp only [renderGo, hm]
          cases List.lookup nm b with
          | some v =>
            have heq : renderGo b f1' rest = renderGo b f2' rest :=
              ih f2' rest (by omega) (by omega)
            simp only [heq]
          | none => rfl
        | none =>
          have heq : renderGo b f1' cs = renderGo b f2' cs := ih f2' cs (by omega) (by omega)
          simp only [renderGo, hm, heq]

theorem renderGo_eq_renderChars (b : Bindings) {fuel : Nat} {l : List Char}
    (h : l.length ≤ fuel) : renderGo b fuel l = renderChars b l :=
  renderGo_fuel b fuel l.length l h (le_refl _)

theorem identStr_destruct {nm : String} (h : identStr nm = true) :
    ∃ c cs, nm.data = c :: cs ∧ isIdentStart c = true ∧ ∀ x ∈ cs, isIdentChar x = true := by
  rw [identStr] at h
  cases hd : nm.data with
  | nil => rw [hd] at h; cases h
  | cons c cs =>
    rw [hd] at h
    rw [Bool.and_eq_true] at h
    exact ⟨c, cs, rfl, h.1, List.all_eq_true.mp h.2⟩

theorem isIdentStart_not_ws {c : Char} (h : isIdentStart c = true) :
    c.isWhitespace = false := by
  cases hw : c.isWhitespace
  · rfl
  · exfalso
    simp only [Char.isWhitespace, Bool.or_eq_true, decide_eq_true_eq] at hw
    rcases hw with (((h1 | h1) | h1) | h1) <;> subst h1 <;> simp [isIdentStart] at h

theorem takeWhile_all_append {p : Char → Bool} {y : Char} (hy : p y = false) :
    ∀ (cs r : List Char), (∀ x ∈ cs, p x = true) →
      (cs ++ y :: r).takeWhile p = cs ∧ (cs ++ y :: r).dropWhile p = y :: r := by
  intro cs
  induction cs with
  | nil =>
    intro r _
    constructor
    · simp [List.takeWhile_cons, hy]
    · simp [List.dropWhile_cons, hy]
  | cons c cs' ih =>
    intro r hall
    have hc : p c = true := hall c (List.mem_cons_self c cs')
    have ih' := ih r (fun x hx => hall x (List.mem_cons_of_mem c hx))
    constructor
    · simp only [List.cons_append, List.takeWhile_cons, hc, if_true, ih'.1]
    · simp only [List.cons_append, List.dropWhile_cons, hc, if_true, ih'.2]

theorem matchMarker_ident (nm : String) (rest : List Char) (h : identStr nm = true) :
    matchMarker (lbrace :: lbrace :: (nm.data ++ rbrace :: rbrace :: rest)) =
      some (nm, rest) := by
  obtain ⟨c, cs, hd, hstart, hall⟩ := identStr_destruct h
  have hws : c.isWhitespace = false := isIdentStart_not_ws hstart
  have hrb : isIdentChar rbrace = false := by decide
  have hrbws : Char.isWhitespace rbrace = false := by decide
  obtain ⟨htw, hdw⟩ := takeWhile_all_append hrb cs (rbrace :: rest) hall
  rw [matchMarker, if_pos ⟨rfl, rfl⟩, hd]
  rw [markerBody]
  simp only [List.cons_append, List.dropWhile_cons, hws, if_false, Bool.false_eq_true]
  simp only [hstart, if_true]
  rw [afterIdent, hdw]
  simp only [List.dropWhile_cons, hrbws, Bool.false_eq_true, if_false]
  rw [closeBraces, if_pos ⟨rfl, rfl⟩, htw]
  have : String.mk (c :: cs) = nm := by rw [← hd]
  rw [this]

theorem matchMarker_not_lbrace {c : Char} (h : c ≠ lbrace) (t : List Char) :
    matchMarker (c :: t) = none := by
  cases t with
  | nil => rfl
  | cons c2 t' =>
    rw [matchMarker, if_neg]
    intro hc
    exact h hc.1

theorem renderChars_cons_marker (b : Bindings) (nm v : String) (rest : List Char)
    (hid : identStr nm = true) (hv : List.lookup nm b = some v) :
    renderChars b (lbrace :: lbrace :: (nm.data ++ rbrace :: rbrace :: rest)) =
      match renderChars b rest with
      | .ok t => .ok (v.data ++ t)
      | .error e => .error e := by
  have hm := matchMarker_ident nm rest hid
  rw [renderChars]
  simp only [List.length_cons]
  rw [renderGo]
  rw [hm]
  simp only [hv]
  have hlen : rest.length ≤ (nm.data ++ rbrace :: rbrace :: rest).length + 1 := by
    simp only [List.length_append, List.length_cons]
    omega
  rw [renderGo_eq_renderChars b hlen]

theorem renderChars_no_lbrace (b : Bindings) :
    ∀ (s rest : List Char), (∀ c ∈ s, c ≠ lbrace) →
      renderChars b (s ++ rest) =
        match renderChars b rest with
        | .ok t => .ok (s ++ t)
        | .error e => .error e := by
  intro s
  induction s with
  | nil =>
    intro rest _
    simp only [List.nil_append]
    cases hr : renderChars b rest <;> simp
  | cons c s' ih =>
    intro rest hs
    have hc : c ≠ lbrace := hs c (List.mem_cons_self c s')
    have hm := matchMarker_not_lbrace hc (s' ++ rest)
    simp only [List.cons_append]
    rw [renderChars]
    simp only [List.length_cons]
    rw [renderGo]
    rw [hm]
    have : renderGo b (s' ++ rest).length (s' ++ rest) = renderChars b (s' ++ rest) := rfl
    rw [this, ih rest (fun x hx => hs x (List.mem_cons_of_mem c hx))]
    cases hr : renderChars b rest <;> simp

theorem renderChars_noMarker (b : Bindings) :
    ∀ (l : List Char), noMarkerL l = true → renderChars b l = .ok l := by
  intro l
  induction l with
  | nil => intro _; rfl
  | cons c cs ih =>
    intro h
    rw [noMarkerL, Bool.and_eq_true] at h
    have hm : matchMarker (c :: cs) = none := Option.isNone_iff_eq_none.mp h.1
    rw [renderChars]
    simp only [List.length_cons]
    rw [renderGo, hm]
    have : renderGo b cs.length cs = renderChars b cs := rfl
    rw [this, ih h.2]

theorem renderGo_isOk_of_bound (b : Bindings) :
    ∀ (fuel : Nat) (l : List Char),
      (∀ nm ∈ usedVarsGo fuel l, (List.lookup nm b).isSome = true) →
      isOkE (renderGo b fuel l) = true := by
  intro fuel
  induction fuel with
  | zero =>
    intro l _
    cases l <;> rfl
  | succ f ih =>
    intro l h
    cases l with
    | nil => rfl
    | cons c cs =>
      cases hm : matchMarker (c :: cs) with
      | some p =>
        obtain ⟨nm, rest⟩ := p
        rw [usedVarsGo, hm] at h
        have hnm : (List.lookup nm b).isSome = true := h nm (List.mem_cons_self nm _)
        obtain ⟨v, hv⟩ := Option.isSome_iff_exists.mp hnm
        rw [renderGo, hm]
        simp only [hv]
        have hrest := ih rest (fun x hx => h x (List.mem_cons_of_mem nm hx))
        cases hr : renderGo b f rest with
        | ok t => rfl
        | error e => rw [hr] at hrest; cases hrest
      | none =>
        rw [usedVarsGo, hm] at h
        have hcs := ih cs h
        rw [renderGo, hm]
        cases hr : renderGo b f cs with
        | ok t => rfl
        | error e => rw [hr] at hcs; cases hcs

theorem renderText_isOk_of_bound (b : Bindings) (s : String)
    (h : ∀ nm ∈ usedVarsStr s, (List.lookup nm b).isSome = true) :
    isOkE (renderText b s) = true := by
  have hgo := renderGo_isOk_of_bound b s.data.length s.data h
  rw [renderText]
  cases hr : renderChars b s.data with
  | ok l => rfl
  | error e =>
    rw [renderChars] at hr
    rw [hr] at hgo
    cases hgo

theorem renderText_noMarker (b : Bindings) (s : String) (h : noMarkerStr s = true) :
    renderText b s = .ok s := by
  rw [renderText, renderChars_noMarker b s.data h]

theorem lexLe_refl [DecidableEq α] (lt : α → α → Bool) :
    ∀ (l : List α), lexLe lt l l = true := by
  intro l
  induction l with
  | nil => rfl
  | cons a as ih => rw [lexLe, if_pos rfl]; exact ih

theorem lexLe_append [DecidableEq α] (lt : α → α → Bool) :
    ∀ (l r : List α), lexLe lt l (l ++ r) = true := by
  intro l
  induction l with
  | nil => intro r; rfl
  | cons a as ih =>
    intro r
    simp only [List.cons_append, lexLe, if_pos rfl]
    exact ih r

theorem lexLe_append_not [DecidableEq α] (lt : α → α → Bool) :
    ∀ (l r : List α), r ≠ [] → lexLe lt (l ++ r) l = false := by
  intro l
  induction l with
  | nil =>
    intro r hr
    cases r with
    | nil => exact absurd rfl hr
    | cons x xs => rfl
  | cons a as ih =>
    intro r hr
    simp only [List.cons_append, lexLe, if_pos rfl]
    exact ih r hr

theorem lexLe_total [DecidableEq α] {lt : α → α → Bool}
    (hlt : ∀ a b, a ≠ b → (lt a b || lt b a) = true) :
    ∀ (l1 l2 : List α), (lexLe lt l1 l2 || lexLe lt l2 l1) = true := by
  intro l1
  induction l1 with
  | nil => intro l2; simp [lexLe]
  | cons a as ih =>
    intro l2
    cases l2 with
    | nil => simp [lexLe]
    | cons b bs =>
      by_cases hab : a = b
      · subst hab
        simp only [lexLe, if_pos rfl]
        exact ih bs
      · simp only [lexLe, if_neg hab, if_neg (Ne.symm hab)]
        exact hlt a b hab

theorem lexLe_antisymm [DecidableEq α] {lt : α → α → Bool}
    (hasym : ∀ a b, lt a b = true → lt b a = true → False) :
    ∀ (l1 l2 : List α), lexLe lt l1 l2 = true → lexLe lt l2 l1 = true → l1 = l2 := by
  intro l1
  induction l1 with
  | nil =>
    intro l2 _ h2
    cases l2 with
    | nil => rfl
    | cons b bs => cases h2
  | cons a as ih =>
    intro l2 h1 h2
    cases l2 with
    | nil => cases h1
    | cons b bs =>
      by_cases hab : a = b
      · subst hab
        rw [lexLe, if_pos rfl] at h1 h2
        rw [ih bs h1 h2]
      · rw [lexLe, if_neg hab] at h1
        rw [lexLe, if_neg (Ne.symm hab)] at h2
        exact (hasym a b h1 h2).elim

theorem lexLe_trans [DecidableEq α] {lt : α → α → Bool}
    (hasym : ∀ a b, lt a b = true → lt b a = true → False)
    (htr : ∀ a b c, lt a b = true → lt b c = true → lt a c = true) :
    ∀ (l1 l2 l3 : List α), lexLe lt l1 l2 = true → lexLe lt l2 l3 = true →
      lexLe lt l1 l3 = true := by
  intro l1
  induction l1 with
  | nil => intro l2 l3 _ _; cases l3 <;> rfl
  | cons a as ih =>
    intro l2 l3 h1 h2
    cases l2 with
    | nil => cases h1
    | cons b bs =>
      cases l3 with
      | nil => cases h2
      | cons c cs =>
        by_cases hab : a = b
        · subst hab
          rw [lexLe, if_pos rfl] at h1
          by_cases hbc : a = c
          · subst hbc
            rw [lexLe, if_pos rfl] at h2 ⊢
            exact ih bs cs h1 h2
          · rw [lexLe, if_neg hbc] at h2 ⊢
            exact h2
        · rw [lexLe, if_neg hab] at h1
          by_cases hbc : b = c
          · subst hbc
            rw [lexLe, if_neg hab]
            exact h1
          · rw [lexLe, if_neg hbc] at h2
            by_cases hac : a = c
            · subst hac
              exact (hasym a b h1 h2).elim
            · rw [lexLe, if_neg hac]
              exact htr a b c h1 h2

theorem charLt_asymm (a b : Char) (h1 : charLt a b = true) (h2 : charLt b a = true) :
    False := by
  rw [charLt, decide_eq_true_eq] at h1 h2
  exact absurd h1 (lt_asymm h2)

theorem charLt_trans (a b c : Char) (h1 : charLt a b = true) (h2 : charLt b c = true) :
    charLt a c = true := by
  rw [charLt, decide_eq_true_eq] at h1 h2 ⊢
  exact lt_trans h1 h2

theorem charLt_total (a b : Char) (h : a ≠ b) : (charLt a b || charLt b a) = true := by
  simp only [charLt, Bool.or_eq_true, decide_eq_true_eq]
  exact lt_or_gt_of_ne h

theorem strLe_antisymm (s t : String) (h1 : strLe s t = true) (h2 : strLe t s = true) :
    s = t :=
  String.ext (lexLe_antisymm charLt_asymm s.data t.data h1 h2)

theorem strLe_trans (s t u : String) (h1 : strLe s t = true) (h2 : strLe t u = true) :
    strLe s u = true :=
  lexLe_trans charLt_asymm charLt_trans s.data t.data u.data h1 h2

theorem strLe_total (s t : String) : (strLe s t || strLe t s) = true := by
  by_cases h : s = t
  · subst h
    rw [Bool.or_eq_true]
    left
    exact lexLe_refl charLt s.data
  · exact lexLe_total charLt_total s.data t.data

theorem strLt_asymm (a b : String) (h1 : strLt a b = true) (h2 : strLt b a = true) :
    False := by
  rw [strLt, Bool.and_eq_true] at h1 h2
  exact absurd (strLe_antisymm a b h1.1 h2.1) (of_decide_eq_true h1.2)

theorem strLt_trans (a b c : String) (h1 : strLt a b = true) (h2 : strLt b c = true) :
    strLt a c = true := by
  rw [strLt, Bool.and_eq_true] at h1 h2 ⊢
  refine ⟨strLe_trans a b c h1.1 h2.1, ?_⟩
  rw [decide_eq_true_eq]
  intro hac
  subst hac
  exact absurd (strLe_antisymm a b h1.1 h2.1) (of_decide_eq_true h1.2)

theorem strLt_total (a b : String) (h : a ≠ b) : (strLt a b || strLt b a) = true := by
  have := strLe_total a b
  rw [Bool.or_eq_true] at this ⊢
  rcases this with hle | hle
  · left
    rw [strLt, Bool.and_eq_true, decide_eq_true_eq]
    exact ⟨hle, h⟩
  · right
    rw [strLt, Bool.and_eq_true, decide_eq_true_eq]
    exact ⟨hle, Ne.symm h⟩

theorem pathLe_antisymm (p q : List String) (h1 : pathLe p q = true)
    (h2 : pathLe q p = true) : p = q :=
  lexLe_antisymm strLt_asymm p q h1 h2

theorem pathLe_trans (p q r : List String) (h1 : pathLe p q = true)
    (h2 : pathLe q r = true) : pathLe p r = true :=
  lexLe_trans strLt_asymm strLt_trans p q r h1 h2

theorem pathLe_total (p q : List String) : (pathLe p q || pathLe q p) = true := by
  by_cases h : p = q
  · subst h
    rw [Bool.or_eq_true]
    left
    exact lexLe_refl strLt p
  · exact lexLe_total strLt_total p q

theorem entryRel_total (a c : TemplateEntry) : entryRel a c ∨ entryRel c a := by
  have := pathLe_total a.path c.path
  rw [Bool.or_eq_true] at this
  exact this

theorem entryRel_trans (a c d : TemplateEntry) (h1 : entryRel a c) (h2 : entryRel c d) :
    entryRel a d :=
  pathLe_trans a.path c.path d.path h1 h2

theorem findUnbound_mem (b : Bindings) :
    ∀ (es : List TemplateEntry) (e : TemplateEntry) (nm : String), e ∈ es →
      nm ∈ usedVarsEntry e → List.lookup nm b = none →
      ∃ nm2 p2, findUnbound b es = some (nm2, p2) := by
  intro es
  induction es with
  | nil => intro e nm he; cases he
  | cons e0 rest ih =>
    intro e nm he hu hl
    cases h0 : (usedVarsEntry e0).find? (fun x => (List.lookup x b).isNone) with
    | some x => exact ⟨x, e0.path, by rw [findUnbound, h0]⟩
    | none =>
      rcases List.mem_cons.mp he with he0 | hrest
      · subst he0
        have hnot := List.find?_eq_none.mp h0 nm hu
        rw [hl] at hnot
        simp at hnot
      · obtain ⟨nm2, p2, hf⟩ := ih e nm hrest hu hl
        exact ⟨nm2, p2, by rw [findUnbound, h0]; exact hf⟩

theorem sorted_perm_eq :
    ∀ (l1 l2 : List TemplateEntry), List.Sorted entryRel l1 → List.Sorted entryRel l2 →
      l1.Perm l2 → l1.Pairwise (fun a c => a.path ≠ c.path) → l1 = l2 := by
  intro l1
  induction l1 with
  | nil =>
    intro l2 _ _ hp _
    exact (hp.symm.eq_nil).symm
  | cons a t1 ih =>
    intro l2 hs1 hs2 hp hd
    cases l2 with
    | nil => exact absurd hp.eq_nil (by simp)
    | cons c t2 =>
      have hac : a = c := by
        rcases List.mem_cons.mp (hp.mem_iff.mp (List.mem_cons_self a t1)) with h | h
        · exact h
        · have hca : entryRel c a := (List.sorted_cons.mp hs2).1 a h
          rcases List.mem_cons.mp (hp.symm.mem_iff.mp (List.mem_cons_self c t2)) with h2 | h2
          · exact h2.symm
          · have hac' : entryRel a c := (List.sorted_cons.mp hs1).1 c h2
            have hpe : a.path = c.path := pathLe_antisymm a.path c.path hac' hca
            exact absurd hpe ((List.pairwise_cons.mp hd).1 c h2)
      subst hac
      have ht := ih t2 (List.sorted_cons.mp hs1).2 (List.sorted_cons.mp hs2).2 hp.cons_inv
        (List.pairwise_cons.mp hd).2
      rw [ht]

theorem walk_perm_eq (excl : List String) {l1 l2 : List TemplateEntry} (hp : l1.Perm l2)
    (hd : l1.Pairwise (fun a c => a.path ≠ c.path)) : walk excl l1 = walk excl l2 := by
  haveI : IsTotal TemplateEntry entryRel := ⟨entryRel_total⟩
  haveI : IsTrans TemplateEntry entryRel := ⟨entryRel_trans⟩
  have hf : (l1.filter (keepEntry excl)).Perm (l2.filter (keepEntry excl)) :=
    hp.filter (keepEntry excl)
  have hs1 : List.Sorted entryRel (walk excl l1) := List.sorted_insertionSort entryRel _
  have hs2 : List.Sorted entryRel (walk excl l2) := List.sorted_insertionSort entryRel _
  have hperm : (walk excl l1).Perm (walk excl l2) :=
    (List.perm_insertionSort entryRel _).trans
      (hf.trans (List.perm_insertionSort entryRel _).symm)
  have hd1 : (l1.filter (keepEntry excl)).Pairwise (fun a c => a.path ≠ c.path) :=
    hd.sublist (List.filter_sublist l1)
  have hdw : (walk excl l1).Pairwise (fun a c => a.path ≠ c.path) := by
    have hpw : (l1.filter (keepEntry excl)).Perm (walk excl l1) :=
      (List.perm_insertionSort entryRel _).symm
    exact (hpw.pairwise_iff (fun hab => Ne.symm hab)).mp hd1
  exact sorted_perm_eq (walk excl l1) (walk excl l2) hs1 hs2 hperm hdw

theorem isPrefixOf_self_append : ∀ (d p : List String), d.isPrefixOf (d ++ p) = true := by
  intro d
  induction d with
  | nil => intro p; simp [List.isPrefixOf]
  | cons a as ih =>
    intro p
    simp only [List.cons_append, List.isPrefixOf, Bool.and_eq_true, beq_self_eq_true]
    exact ⟨trivial, ih p⟩

/-- C7: for every Bindings, rendering a text blob that contains no
placeholder markers returns the blob unchanged — substitution is the
identity on marker-free text. -/
theorem render_identity_no_markers (b : Bindings) (s : String)
    (h : noMarkerStr s = true) : renderText b s = .ok s :=
  renderText_noMarker b s h

theorem render_identity_no_markers_witness :
    renderText [("name", "Foo")] "hello world" = .ok "hello world" :=
  render_identity_no_markers [("name", "Foo")] "hello world" (by decide)

/-- C9: single-brace sequences such as the f-string interpolation
`\x7bname\x7d` in the generated hello command are not placeholder
markers: for every Bindings (including any that bind `name`),
substitution leaves the line byte-for-byte unchanged. -/
theorem single_brace_not_marker (b : Bindings) :
    renderText b fstringLine = .ok fstringLine :=
  renderText_noMarker b fstringLine (by decide)

/-- C10: the only variable named by any placeholder marker in either
template file (contents and path segments) is `name`, and rendering both
files with any Bindings whose key set is exactly `\x7bname\x7d` succeeds
without `UnboundVariable`. -/
theorem only_name_variable_renders :
    usedVarsStr initContent = ["name", "name"] ∧
    usedVarsStr testContent = ["name", "name"] ∧
    templatePathSegs.map usedVarsStr = [[], [], [], [], []] ∧
    ∀ v : String, isOkE (renderText [("name", v)] initContent) = true ∧
      isOkE (renderText [("name", v)] testContent) = true := by
  refine ⟨rfl, rfl, rfl, ?_⟩
  intro v
  constructor
  · apply renderText_isOk_of_bound
    intro nm hnm
    rw [show usedVarsStr initContent = ["name", "name"] from rfl] at hnm
    have hn : nm = "name" := by
      rcases List.mem_cons.mp hnm with h | h
      · exact h
      · simpa using h
    subst hn
    rfl
  · apply renderText_isOk_of_bound
    intro nm hnm
    rw [show usedVarsStr testContent = ["name", "name"] from rfl] at hnm
    have hn : nm = "name" := by
      rcases List.mem_cons.mp hnm with h | h
      · exact h
      · simpa using h
    subst hn
    rfl

/-- C2: instantiating the spec's §8 scenario template
(`src/\x7b\x7bname\x7d\x7d/__init__` containing `\x7b\x7bname\x7d\x7d`
and `tests/test_main` containing `from \x7b\x7bname\x7d\x7d import app`)
with Bindings `\x7bname: "widget"\x7d` produces exactly the tree
`src/widget/__init__` containing `widget` and `tests/test_main`
containing `from widget import app`. -/
theorem scenario_instantiation_output :
    instantiate [] scenarioEntries [("name", "widget")] [] ⟨[], []⟩ =
      (⟨[["src"], ["src", "widget"], ["tests"]],
        [(["src", "widget", "__init__"], "widget"),
         (["tests", "test_main"], "from widget import app")]⟩,
       .ok ([], 2)) := rfl

/-- C3: if any placeholder marker anywhere in any walked entry's content
or path segments names a variable absent from Bindings, instantiation
fails with `UnboundVariable` (carrying a variable name and the
originating entry's path) and the filesystem is returned unchanged —
whole-tree validation precedes any mutation. -/
theorem unbound_variable_aborts (excl : List String) (entries : List TemplateEntry)
    (b : Bindings) (dest : List String) (fs : FS) (e : TemplateEntry) (nm : String)
    (he : e ∈ walk excl entries) (hu : nm ∈ usedVarsEntry e)
    (hl : List.lookup nm b = none) :
    ∃ nm2 p2, instantiate excl entries b dest fs =
      (fs, .error (.unboundVariable nm2 p2)) := by
  obtain ⟨nm2, p2, hfu⟩ := findUnbound_mem b (walk excl entries) e nm he hu hl
  refine ⟨nm2, p2, ?_⟩
  rw [instantiate, instantiateEntries, hfu]

theorem unbound_variable_aborts_witness :
    ∃ nm2 p2, instantiate [] [⟨["greeting.txt"], .file, "\x7b\x7bname\x7d\x7d"⟩] [] []
      ⟨[], []⟩ = (⟨[], []⟩, .error (.unboundVariable nm2 p2)) :=
  unbound_variable_aborts [] [⟨["greeting.txt"], .file, "\x7b\x7bname\x7d\x7d"⟩] [] []
    ⟨[], []⟩ ⟨["greeting.txt"], .file, "\x7b\x7bname\x7d\x7d"⟩ "name"
    (by decide) (by decide) rfl

/-- C5: substituted values are never re-scanned for markers — for any
bound value `v` (even one containing `\x7b\x7b` or a full marker), the
value is emitted literally and scanning resumes after the marker, on the
rest of the input only. -/
theorem substituted_value_literal (b : Bindings) (nm v post : String)
    (hid : identStr nm = true) (hv : List.lookup nm b = some v) :
    renderText b ("\x7b\x7b" ++ nm ++ "\x7d\x7d" ++ post) =
      match renderText b post with
      | .ok t => .ok (v ++ t)
      | .error e => .error e := by
  have hdata : ("\x7b\x7b" ++ nm ++ "\x7d\x7d" ++ post).data =
      lbrace :: lbrace :: (nm.data ++ rbrace :: rbrace :: post.data) := by
    simp [String.data_append, lbrace, rbrace, List.append_assoc]
  rw [renderText, hdata, renderChars_cons_marker b nm v post.data hid hv, renderText]
  cases hr : renderChars b post.data with
  | ok t =>
    simp only []
    congr 1
    try apply String.ext
    try simp [String.data_append]
  | error e => rfl

theorem substituted_value_literal_witness :
    renderText [("name", "\x7b\x7bname\x7d\x7d")] ("\x7b\x7b" ++ "name" ++ "\x7d\x7d" ++ "") =
      .ok "\x7b\x7bname\x7d\x7d" := by
  rw [substituted_value_literal [("name", "\x7b\x7bname\x7d\x7d")] "name"
    "\x7b\x7bname\x7d\x7d" "" (by decide) rfl]
  rfl

/-- C1: the Token Substitution Engine replaces a `\x7b\x7b` name
`\x7d\x7d` marker with the bound value, scanning left to right —
marker-free text before the marker is emitted unchanged, the marker is
replaced, and the scan continues after it; in particular a blob whose
only content is `\x7b\x7bname\x7d\x7d` rendered with
`\x7bname: "Foo"\x7d` yields exactly `Foo`. -/
theorem render_replaces_bound_marker (b : Bindings) (nm v pre post : String)
    (hpre : lbrace ∉ pre.data) (hid : identStr nm = true)
    (hv : List.lookup nm b = some v) :
    renderText b (pre ++ "\x7b\x7b" ++ nm ++ "\x7d\x7d" ++ post) =
      match renderText b post with
      | .ok t => .ok (pre ++ v ++ t)
      | .error e => .error e := by
  have hdata : (pre ++ "\x7b\x7b" ++ nm ++ "\x7d\x7d" ++ post).data =
      pre.data ++ (lbrace :: lbrace :: (nm.data ++ rbrace :: rbrace :: post.data)) := by
    simp [String.data_append, lbrace, rbrace, List.append_assoc]
  rw [renderText, hdata,
    renderChars_no_lbrace b pre.data _ (fun c hc he => hpre (he ▸ hc)),
    renderChars_cons_marker b nm v post.data hid hv, renderText]
  cases hr : renderChars b post.data with
  | ok t =>
    simp only []
    congr 1
    apply String.ext
    try simp [String.data_append, List.append_assoc]
  | error e => rfl

theorem render_replaces_bound_marker_witness :
    renderText [("name", "Foo")] ("" ++ "\x7b\x7b" ++ "name" ++ "\x7d\x7d" ++ "") =
      .ok "Foo" := by
  rw [render_replaces_bound_marker [("name", "Foo")] "name" "Foo" "" ""
    (by decide) (by decide) rfl]
  rfl

/-- C4: the Path Renderer rejects with `InvalidPathSegment` every rendered
segment that is empty, `.`, `..`, or contains a path separator; a binding
value `../evil` used in a path segment makes instantiation fail with
`InvalidPathSegment` and no mutation; and every file an instantiation run
writes lies under the destination root (pre-existing files apart). -/
theorem invalid_segment_guard :
    (∀ (b : Bindings) (p : List String) (seg s : String), renderText b seg = .ok s →
      badSegment s = true → renderSegment b p seg = .error (.invalidPathSegment s p)) ∧
    (instantiate [] [⟨["\x7b\x7bd\x7d\x7d"], .directory, ""⟩] [("d", "../evil")] []
      ⟨[], []⟩ = (⟨[], []⟩, .error (.invalidPathSegment "../evil" ["\x7b\x7bd\x7d\x7d"]))) ∧
    (∀ (excl : List String) (es : List TemplateEntry) (b : Bindings) (dest : List String)
      (fs : FS) (f : List String × String), f ∈ (instantiate excl es b dest fs).1.files →
      f ∈ fs.files ∨ dest.isPrefixOf f.1 = true) := by
  refine ⟨?_, rfl, ?_⟩
  · intro b p seg s h1 h2
    rw [renderSegment, h1]
    simp only [h2, if_true]
  · intro excl es b dest fs f hf
    rw [instantiate, instantiateEntries] at hf
    split at hf
    · exact Or.inl (by simpa using hf)
    · split at hf
      · exact Or.inl (by simpa using hf)
      · split at hf
        · exact Or.inl (by simpa using hf)
        · split at hf
          · exact Or.inl (by simpa using hf)
          · simp only [materialize] at hf
            rcases List.mem_append.mp hf with h | h
            · exact Or.inl h
            · right
              obtain ⟨r, _, hfr⟩ := List.mem_map.mp h
              rw [← hfr]
              exact isPrefixOf_self_append dest r.path

theorem invalid_segment_guard_witness :
    renderSegment [("d", "../evil")] ["\x7b\x7bd\x7d\x7d"] "\x7b\x7bd\x7d\x7d" =
        .error (.invalidPathSegment "../evil" ["\x7b\x7bd\x7d\x7d"]) ∧
      ((["out", "f.txt"], "hi") ∈ (⟨[], []⟩ : FS).files ∨
        (["out"] : List String).isPrefixOf ["out", "f.txt"] = true) :=
  ⟨invalid_segment_guard.1 [("d", "../evil")] ["\x7b\x7bd\x7d\x7d"] "\x7b\x7bd\x7d\x7d"
      "../evil" rfl (by decide),
    invalid_segment_guard.2.2 [] [⟨["f.txt"], .file, "hi"⟩] [] ["out"] ⟨[], []⟩
      (["out", "f.txt"], "hi") (by decide)⟩

/-- C6: instantiation is deterministic in the `TemplateSpec` and Bindings:
the Walker's sorting makes the output independent of the storage
iteration order in which the template's entries are supplied, so two
independent runs over the same entry set (in any permutation) produce
identical output filesystems and identical results. -/
theorem instantiation_deterministic (excl : List String) (b : Bindings)
    (dest : List String) (fs : FS) (l1 l2 : List TemplateEntry) (hp : l1.Perm l2)
    (hd : l1.Pairwise (fun a c => a.path ≠ c.path)) :
    instantiate excl l1 b dest fs = instantiate excl l2 b dest fs := by
  rw [instantiate, instantiate, walk_perm_eq excl hp hd]

theorem instantiation_deterministic_witness :
    instantiate [] [⟨["b.txt"], .file, "x"⟩, ⟨["a.txt"], .file, "y"⟩] [] ["out"]
        ⟨[], []⟩ =
      instantiate [] [⟨["a.txt"], .file, "y"⟩, ⟨["b.txt"], .file, "x"⟩] [] ["out"]
        ⟨[], []⟩ :=
  instantiation_deterministic [] [] ["out"] ⟨[], []⟩
    [⟨["b.txt"], .file, "x"⟩, ⟨["a.txt"], .file, "y"⟩]
    [⟨["a.txt"], .file, "y"⟩, ⟨["b.txt"], .file, "x"⟩] (by decide) (by decide)

/-- C8: the Walker enumerates entries sorted by the depth-first path
order (`entryRel`): parents precede descendants — a directory's path is
strictly below any path extending it — and siblings are in ascending raw
name order; and the Materializer's commit phase creates all directory
entries (in Phase-1 order) before it writes any file entry. -/
theorem walker_order_and_dirs_first :
    (∀ (excl : List String) (es : List TemplateEntry),
      List.Sorted entryRel (walk excl es)) ∧
    (∀ (d rest : List String), rest ≠ [] →
      pathLe d (d ++ rest) = true ∧ pathLe (d ++ rest) d = false) ∧
    (∀ (fs : FS) (dest : List String) (rs : List RenderedEntry),
      (materialize fs dest rs).dirs = fs.dirs ++
          (rs.filter (fun r => decide (r.kind = EntryKind.directory))).map
            (fun r => dest ++ r.path) ∧
      (materialize fs dest rs).files = fs.files ++
          (rs.filter (fun r => decide (r.kind = EntryKind.file))).map
            (fun r => (dest ++ r.path, r.content))) := by
  refine ⟨?_, ?_, ?_⟩
  · intro excl es
    haveI : IsTotal TemplateEntry entryRel := ⟨entryRel_total⟩
    haveI : IsTrans TemplateEntry entryRel := ⟨entryRel_trans⟩
    exact List.sorted_insertionSort entryRel _
  · intro d rest hr
    exact ⟨lexLe_append strLt d rest, lexLe_append_not strLt d rest hr⟩
  · intro fs dest rs
    exact ⟨rfl, rfl⟩

theorem walker_order_and_dirs_first_witness :
    pathLe ["src"] ["src", "widget"] = true ∧ pathLe ["src", "widget"] ["src"] = false :=
  walker_order_and_dirs_first.2.1 ["src"] ["widget"] (by decide)

end TemplateEngine
